import Mathlib

/-!
Verification development for two scripts of the cuda_scheduling_examiner
repository: scripts/test_granularity.py (configuration generation and the
sweep driver) and scripts/view_scatterplots_eurosys.py (result-file
aggregation and summary statistics).

Numeric values that the Python code holds in floating point are modelled
as exact rationals, and Python exceptions are modelled with Except.
Records parsed from JSON files are modelled as Lean structures holding the
fields the scripts read.
-/

namespace CudaSched

/-! ## ASCII lowercasing, modelling the Python str.lower method
(the method names compared by the scripts are all ASCII). -/

/-- Lowercase a single character, ASCII range only. -/
def pyLowerChar (c : Char) : Char :=
  if 65 ≤ c.toNat ∧ c.toNat ≤ 90 then Char.ofNat (c.toNat + 32) else c

/-- Model of the Python str.lower method on ASCII strings. -/
def pyLower (s : String) : String := ⟨s.data.map pyLowerChar⟩

/-! ## Python int(s, 2), modelling binary-literal parsing used by the
libsmctrl branch of generate_config. -/

/-- Accumulator loop of binary-literal parsing: val = val*2 + digit. -/
def parseBinGo : List Char → Nat → Except String Nat
  | [], acc => .ok acc
  | c :: cs, acc =>
    if c = '0' then parseBinGo cs (2 * acc)
    else if c = '1' then parseBinGo cs (2 * acc + 1)
    else .error "invalid literal for int with base 2"

/-- Model of Python int(s, 2): the empty string is rejected, otherwise the
digits are folded most-significant first. -/
def parseBin (l : List Char) : Except String Nat :=
  if l = [] then .error "invalid literal for int with base 2" else parseBinGo l 0

/-! ## Python hex(n) for nonnegative n, used to render the sm_mask. -/

/-- Hexadecimal digit characters, lowercase as Python prints them. -/
def hexDigitChar (n : Nat) : Char :=
  if n < 10 then Char.ofNat (48 + n) else Char.ofNat (87 + n)

/-- Digit list of n written in base 16, most significant first. -/
def hexDigits (n : Nat) : List Char :=
  if n < 16 then [hexDigitChar n]
  else hexDigits (n / 16) ++ [hexDigitChar (n % 16)]
  termination_by n
  decreasing_by exact Nat.div_lt_self (by omega) (by omega)

/-- Model of Python hex(n) for nonnegative n: leading 0x, then lowercase
hexadecimal digits. -/
def pyHex (n : Nat) : String := ⟨'0' :: 'x' :: hexDigits n⟩

/-- Value of one hexadecimal digit character, lowercase letters only. -/
def hexVal (c : Char) : Option Nat :=
  if 48 ≤ c.toNat ∧ c.toNat ≤ 57 then some (c.toNat - 48)
  else if 97 ≤ c.toNat ∧ c.toNat ≤ 102 then some (c.toNat - 87)
  else none

/-- Accumulator loop reading hexadecimal digits most significant first. -/
def parseHexGo : List Char → Nat → Option Nat
  | [], acc => some acc
  | c :: cs, acc =>
    match hexVal c with
    | none => none
    | some d => parseHexGo cs (16 * acc + d)

/-- Read back a hexadecimal literal of the form 0x followed by at least one
lowercase hexadecimal digit. -/
def parseHexLit (s : String) : Option Nat :=
  match s.data with
  | c0 :: c1 :: ds =>
    if c0 = '0' ∧ c1 = 'x' ∧ ds ≠ [] then parseHexGo ds 0 else none
  | _ => none

/-! ## Python round(x, 4), idealized over the exact rationals.
The decimal rounding is to the nearest multiple of 1/10^4, ties to the
even multiple. The program computes on binary doubles, so at an input
whose exact value lands on a decimal tie the float result can differ from
this idealization by one grid step; the concrete results below are taken
at inputs away from ties, where the two agree, and the error bound proved
below holds under either resolution of a tie. -/

/-- Round a rational to the nearest integer, ties to the even integer. -/
def roundHalfEven (q : ℚ) : ℤ :=
  let n := ⌊q⌋
  let f := q - n
  if f < 1/2 then n
  else if 1/2 < f then n + 1
  else if n % 2 = 0 then n else n + 1

/-- Model of Python round(x, 4). -/
def pyRound4 (q : ℚ) : ℚ := (roundHalfEven (q * 10000) : ℚ) / 10000

/-! ## scripts/test_granularity.py -/

/-- MiG instance geometries supported by the A100, keyed by TPC count
(MIG_CONFIGS in the source). -/
def MIG_CONFIGS (tpcs : Nat) : Option String :=
  if tpcs = 7 then some "1g.10gb"
  else if tpcs = 14 then some "2g.10gb"
  else if tpcs = 21 then some "3g.20gb"
  else if tpcs = 28 then some "4g.20gb"
  else if tpcs = 49 then some "7g.40gb"
  else none

/-- The plugin_config dictionary built by generate_config. Keys that the
mps and libsmctrl branches may add are optional fields. -/
structure PluginConfig where
  label : String
  log_name : String
  filename : String
  thread_count : Nat × Nat
  block_count : Nat
  data_size : Nat
  matrix_width : Nat
  skip_copy : Bool
  mps_thread_percentage : Option ℚ
  sm_mask : Option String
deriving DecidableEq

/-- The overall_config dictionary returned (as JSON) by generate_config. -/
structure OverallConfig where
  name : String
  max_iterations : Int
  max_time : Nat
  cuda_device : Int
  use_processes : Bool
  pin_cpus : Bool
  do_warmup : Bool
  benchmarks : List PluginConfig
deriving DecidableEq

/-- Observable outcomes of the nvidia-smi invocations made by the mig
branch: whether each command exited normally (os.WIFEXITED) and its exit
status (os.WEXITSTATUS). -/
structure MigEnv where
  listExited : Bool
  listStatus : Nat
  createExited : Bool
  createStatus : Nat

/-- The percentage computed by the mps branch: a floating-point divide,
plus the epsilon 0.0001, rounded to 4 decimal places and capped at 100,
idealized over the exact rationals. Python would raise ZeroDivisionError
at total = 0 while rational division yields 0; the theorems about this
definition assume 0 < active and active at most total. -/
def mpsPercentage (active_tpcs total_tpcs : Nat) : ℚ :=
  min 100 (pyRound4 (100 * (active_tpcs : ℚ) / (total_tpcs : ℚ) + 1/10000))

/-- Model of generate_config from test_granularity.py. The returned JSON
string is modelled as the config structure being serialized; exceptions
raised by the Python code become Except.error (message texts are modelled
without quote characters). -/
def generate_config (device : Int) (part_method : String)
    (total_tpcs active_tpcs : Nat) (iterations : Int) (env : MigEnv) :
    Except String OverallConfig :=
  let base : PluginConfig :=
    { label := toString active_tpcs
      log_name := "eurosys25_" ++ part_method ++ "_" ++ toString active_tpcs ++ "tpcs.json"
      filename := "./bin/matrix_multiply.so"
      thread_count := (32, 32)
      block_count := 1
      data_size := 0
      matrix_width := 8192
      skip_copy := true
      mps_thread_percentage := none
      sm_mask := none }
  let finish : PluginConfig → Except String OverallConfig := fun pc =>
    .ok { name := "TPC Count vs. Performance with " ++ part_method
          max_iterations := iterations
          max_time := 0
          cuda_device := device
          use_processes := true
          pin_cpus := true
          do_warmup := true
          benchmarks := [pc] }
  if pyLower part_method = "mps" then
    finish { base with mps_thread_percentage := some (mpsPercentage active_tpcs total_tpcs) }
  else if pyLower part_method = "libsmctrl" then
    match parseBin (List.replicate active_tpcs '1') with
    | .error e => .error e
    | .ok v => finish { base with sm_mask := some ("~" ++ pyHex v) }
  else if pyLower part_method = "mig" then
    if ¬ env.listExited ∨ env.listStatus = 6 then
      .error "MiG-capable GPU required for MiG experiments!"
    else
      match MIG_CONFIGS active_tpcs with
      | none => .error ("KeyError: " ++ toString active_tpcs)
      | some config =>
        if ¬ env.createExited ∨ env.createStatus ≠ 0 then
          .error ("Unable to create MiG instance with config " ++ config ++ "!")
        else finish base
  else .error ("Unknown partitioning type: " ++ part_method)

/-! ## The sweep driver (the __main__ block of test_granularity.py).
The pysmctrl module is imported at the top of the script, so the module
object is always truthy; its get_tpc_info_cuda result is the detected
field of the environment. argparse applies the default 1 to start_count,
so that argument is always an integer. -/

/-- Command-line arguments of test_granularity.py. -/
structure DriverArgs where
  tpc_count : Option Int
  start_count : Int
  mig : Bool
  device : Int
  iterations : Int

/-- Environment of the driver: the TPC count that pysmctrl detects. -/
structure DriverEnv where
  detected : Int

/-- Python range(lo, hi), over the integers. -/
def intRange (lo hi : Int) : List Int :=
  (List.range (hi - lo).toNat).map (fun k => lo + k)

/-- The driver once tpc_count is settled: the start_count check, then the
branch on MiG mode with its TPC-count validation, then the nested launch
loops (one (method, active) pair per launched runner, in launch order). -/
def driverRest (args : DriverArgs) (env : DriverEnv) (tpc_count : Int) :
    Except Nat (List (String × Int)) :=
  if args.start_count ≤ 0 then .error 22
  else if args.mig then
    .ok (([7, 14, 21, 28, 49] : List Int).map (fun a => ("mig", a)))
  else if tpc_count > env.detected then .error 22
  else
    .ok ((intRange args.start_count (tpc_count + 1)).foldr
      (fun a acc => ("mps", a) :: ("libsmctrl", a) :: acc) [])

/-- Model of the driver (the __main__ block): either an exit code
(Except.error) reached before any runner process starts, or the list of
(method, active TPC count) pairs launched. A user-specified tpc_count is
validated to be positive; otherwise the auto-detected count is used. -/
def driver (args : DriverArgs) (env : DriverEnv) : Except Nat (List (String × Int)) :=
  match args.tpc_count with
  | some tc => if tc ≤ 0 then .error 22 else driverRest args env tc
  | none => driverRest args env env.detected

/-! ## scripts/view_scatterplots_eurosys.py -/

/-- Value of a decimal digit list, most significant first. -/
def digitsVal (l : List Char) : Nat :=
  l.foldl (fun acc c => 10 * acc + (c.toNat - 48)) 0

/-- Whether every character of the list is a decimal digit. -/
def allDigits (l : List Char) : Bool :=
  l.all (fun c => 48 ≤ c.toNat && c.toNat ≤ 57)

/-- Value of an unsigned decimal literal: digits, with at most one point,
and at least one digit overall. -/
def decimalVal (l : List Char) : Option ℚ :=
  let ip := l.takeWhile (fun c => c != '.')
  match l.dropWhile (fun c => c != '.') with
  | [] => if allDigits ip ∧ ip ≠ [] then some (digitsVal ip : ℚ) else none
  | _ :: fp =>
    if allDigits ip ∧ allDigits fp ∧ (ip ≠ [] ∨ fp ≠ []) then
      some ((digitsVal ip : ℚ) + (digitsVal fp : ℚ) / (10 : ℚ) ^ fp.length)
    else none

/-- Model of convert_to_float from view_scatterplots_eurosys.py: Python
float(s) restricted to plain decimal notation with an optional sign (no
exponents, no infinities, no underscores, no surrounding whitespace);
returns none where float(s) raises and the script catches. -/
def convert_to_float (s : String) : Option ℚ :=
  match s.data with
  | [] => none
  | c :: rest =>
    if c = '-' then (decimalVal rest).map (fun q => -q)
    else if c = '+' then decimalVal rest
    else decimalVal (c :: rest)

/-- One parsed result file, holding the fields the script reads: the
optional label, the times list (each entry a dictionary from key names to
timestamp arrays), and the scenario name. -/
structure ParsedFile where
  label : Option String
  times : List (List (String × List ℚ))
  scenario_name : String
deriving DecidableEq

/-- Dictionary lookup for a times entry: the Python expressions
(times_key in t) and t[times_key]. -/
def dictGet (e : List (String × List ℚ)) (k : String) : Option (List ℚ) :=
  (e.find? (fun p => p.1 == k)).map (fun p => p.2)

/-- The while loop of plugin_summary_values: i starts at 0 and advances by
2; each step appends times[i + 1] - times[i], and reading one past the end
of an odd-length array raises IndexError. The branch where times[i] is
absent is unreachable, because the loop guard gives i < len(times). -/
def pairLoopIdx (times : List ℚ) (i : Nat) : Except String (List ℚ) :=
  if i < times.length then
    match times[i + 1]? with
    | none => .error "IndexError: list index out of range"
    | some b =>
      match times[i]? with
      | none => .error "IndexError: list index out of range"
      | some a =>
        match pairLoopIdx times (i + 2) with
        | .error e => .error e
        | .ok rest => .ok ((b - a) :: rest)
  else .ok []
  termination_by times.length - i
  decreasing_by omega

/-- Independent formulation of the pairing: the differences of
non-overlapping consecutive pairs, second element minus first. -/
def pairDiffs : List ℚ → List ℚ
  | b :: c :: rest => (c - b) :: pairDiffs rest
  | _ => []

/-- The for loop of plugin_summary_values: entries lacking the times key
are passed over, and the duration samples of the remaining entries are
concatenated in order. -/
def collectDurations (tk : String) : List (List (String × List ℚ)) → Except String (List ℚ)
  | [] => .ok []
  | e :: es =>
    match dictGet e tk with
    | none => collectDurations tk es
    | some ts =>
      match pairLoopIdx ts 0 with
      | .error err => .error err
      | .ok ds =>
        match collectDurations tk es with
        | .error err => .error err
        | .ok rest => .ok (ds ++ rest)

/-- Model of plugin_summary_values: the list [min, max, mean] of the
duration samples, scaled to milliseconds; min of an empty sequence raises
ValueError. -/
def plugin_summary_values (plugin : ParsedFile) (times_key : String) :
    Except String (List ℚ) :=
  match collectDurations times_key plugin.times with
  | .error e => .error e
  | .ok [] => .error "ValueError: min arg is an empty sequence"
  | .ok (d :: ds) =>
    .ok [List.foldl min d ds * 1000, List.foldl max d ds * 1000,
         (d :: ds).sum / ((d :: ds).length : ℚ) * 1000]

/-- What the aggregation loop of show_plots does with one file: skip it
with a printed reason, add one (scenario, label) entry, or raise. -/
inductive FileOutcome where
  | skipped (reason : String)
  | contributed (scenario : String) (label : ℚ) (triplet : List ℚ)
  | crashed (msg : String)
deriving DecidableEq

/-- The body of the aggregation loop of show_plots, for one parsed file. -/
def processFile (tk : String) (r : ParsedFile) : FileOutcome :=
  match r.label with
  | none => .skipped "no label field in file"
  | some lab =>
    if r.times.length < 2 then .skipped "no recorded times in file"
    else
      match convert_to_float lab with
      | none => .skipped "label is not a number"
      | some v =>
        match plugin_summary_values r tk with
        | .error e => .crashed e
        | .ok triplet => .contributed r.scenario_name v triplet

/-- The aggregation loop of show_plots over the whole file list: a Python
dict assignment all_scenarios[name][float_value] = summary_values is
modelled by consing the new binding in front, with lookup returning the
most recent binding. -/
def showPlotsAgg (tk : String) :
    List ParsedFile → List ((String × ℚ) × List ℚ) →
    Except String (List ((String × ℚ) × List ℚ))
  | [], acc => .ok acc
  | r :: rs, acc =>
    match processFile tk r with
    | .skipped _ => showPlotsAgg tk rs acc
    | .crashed e => .error e
    | .contributed s v t3 => showPlotsAgg tk rs (((s, v), t3) :: acc)

/-- Lookup in the aggregated mapping: the most recently written binding. -/
def lookupAgg (m : List ((String × ℚ) × List ℚ)) (k : String × ℚ) :
    Option (List ℚ) :=
  (m.find? (fun p => decide (p.1 = k))).map (fun p => p.2)

/-- Independent formulation of last-writer-wins: scanning the file list
from its end, the first file that contributes under the key. -/
def lastContrib (tk : String) (files : List ParsedFile) (k : String × ℚ) :
    Option (List ℚ) :=
  files.reverse.findSome? (fun r =>
    match processFile tk r with
    | .contributed s v t3 => if (s, v) = k then some t3 else none
    | _ => none)

/-! ## Facts about binary parsing and hexadecimal printing -/

theorem parseBinGo_ones (a : Nat) :
    ∀ acc, parseBinGo (List.replicate a '1') acc = .ok (acc * 2 ^ a + (2 ^ a - 1)) := by
  induction a with
  | zero => intro acc; simp [parseBinGo]
  | succ n ih =>
    intro acc
    rw [List.replicate_succ]
    show (if '1' = '0' then parseBinGo (List.replicate n '1') (2 * acc)
          else if '1' = '1' then parseBinGo (List.replicate n '1') (2 * acc + 1)
          else Except.error "invalid literal for int with base 2") = _
    rw [if_neg (by decide), if_pos rfl, ih]
    have h1 : (2 * acc + 1) * 2 ^ n = 2 * (acc * 2 ^ n) + 2 ^ n := by ring
    have h2 : acc * 2 ^ (n + 1) = 2 * (acc * 2 ^ n) := by ring
    have h3 : (2 : ℕ) ^ (n + 1) = 2 * 2 ^ n := by ring
    have h4 : 1 ≤ 2 ^ n := Nat.one_le_two_pow
    congr 1
    rw [h1, h2, h3]
    omega

theorem parseBin_ones (a : Nat) (h : 0 < a) :
    parseBin (List.replicate a '1') = .ok (2 ^ a - 1) := by
  have hne : List.replicate a '1' ≠ [] := by
    cases a with
    | zero => omega
    | succ n => rw [List.replicate_succ]; simp
  rw [parseBin, if_neg hne, parseBinGo_ones]
  simp

theorem hexDigits_ne_nil (n : Nat) : hexDigits n ≠ [] := by
  rw [hexDigits]
  split <;> simp

theorem hexVal_hexDigitChar : ∀ d, d < 16 → hexVal (hexDigitChar d) = some d := by decide

theorem parseHexGo_append (l₁ l₂ : List Char) :
    ∀ acc, parseHexGo (l₁ ++ l₂) acc =
      match parseHexGo l₁ acc with
      | none => none
      | some a => parseHexGo l₂ a := by
  induction l₁ with
  | nil => intro acc; simp [parseHexGo]
  | cons c cs ih =>
    intro acc
    simp only [List.cons_append, parseHexGo]
    match hexVal c with
    | none => simp
    | some d => simp [ih]

theorem parseHexGo_hexDigits (n : Nat) :
    ∀ acc, parseHexGo (hexDigits n) acc = some (acc * 16 ^ (hexDigits n).length + n) := by
  induction n using Nat.strong_induction_on with
  | _ n ih =>
    intro acc
    rw [hexDigits]
    split_ifs with h
    · simp only [parseHexGo]
      rw [hexVal_hexDigitChar n h]
      simp only [parseHexGo, List.length_singleton, Option.some.injEq, pow_one]
      omega
    · rw [parseHexGo_append, ih (n / 16) (Nat.div_lt_self (by omega) (by omega))]
      simp only [parseHexGo]
      rw [hexVal_hexDigitChar (n % 16) (Nat.mod_lt _ (by omega))]
      simp only [parseHexGo, List.length_append, List.length_singleton,
        Option.some.injEq]
      have h1 : acc * 16 ^ ((hexDigits (n / 16)).length + 1) =
          16 * (acc * 16 ^ (hexDigits (n / 16)).length) := by ring
      have h2 : 16 * (n / 16) + n % 16 = n := Nat.div_add_mod n 16
      omega

theorem parseHexLit_pyHex (n : Nat) : parseHexLit (pyHex n) = some n := by
  show (if '0' = '0' ∧ 'x' = 'x' ∧ hexDigits n ≠ [] then parseHexGo (hexDigits n) 0
        else none) = some n
  rw [if_pos ⟨rfl, rfl, hexDigits_ne_nil n⟩, parseHexGo_hexDigits]
  simp

/-- C1: for every positive active-TPC count, generate_config with method
libsmctrl produces a sm_mask string that is a tilde followed by a
hexadecimal literal; parsed back, the mask value has exactly the active
count of set bits, all in the low-order positions; for active = 5 the
mask is exactly the string of a tilde followed by 0x1f. -/
theorem generate_config_libsmctrl_mask (d : Int) (t a : Nat) (i : Int)
    (env : MigEnv) (h : 0 < a) :
    ∃ cfg pc, generate_config d "libsmctrl" t a i env = .ok cfg ∧
      cfg.benchmarks = [pc] ∧
      pc.sm_mask = some ("~" ++ pyHex (2 ^ a - 1)) ∧
      parseHexLit (pyHex (2 ^ a - 1)) = some (2 ^ a - 1) ∧
      (∀ j, (2 ^ a - 1).testBit j = decide (j < a)) ∧
      (a = 5 → "~" ++ pyHex (2 ^ a - 1) = "~0x1f") := by
  have heq : generate_config d "libsmctrl" t a i env =
      .ok { name := "TPC Count vs. Performance with libsmctrl"
            max_iterations := i
            max_time := 0
            cuda_device := d
            use_processes := true
            pin_cpus := true
            do_warmup := true
            benchmarks := [{
              label := toString a
              log_name := "eurosys25_libsmctrl_" ++ toString a ++ "tpcs.json"
              filename := "./bin/matrix_multiply.so"
              thread_count := (32, 32)
              block_count := 1
              data_size := 0
              matrix_width := 8192
              skip_copy := true
              mps_thread_percentage := none
              sm_mask := some ("~" ++ pyHex (2 ^ a - 1)) }] } := by
    simp only [generate_config]
    rw [if_neg (by decide), if_pos (by decide), parseBin_ones a h]
    rfl
  refine ⟨_, _, heq, rfl, rfl, parseHexLit_pyHex _,
    fun j => Nat.testBit_two_pow_sub_one a j, fun h5 => ?_⟩
  subst h5
  show "~" ++ pyHex 31 = "~0x1f"
  have h31 : pyHex 31 = "0x1f" := by simp [pyHex, hexDigits, hexDigitChar]
  rw [h31]
  decide

/-- Witness for C1 at active = 3 on a 54-TPC GPU. -/
theorem generate_config_libsmctrl_mask_witness :
    0 < 3 ∧ ∃ cfg pc,
      generate_config 0 "libsmctrl" 54 3 10 ⟨true, 0, true, 0⟩ = .ok cfg ∧
      cfg.benchmarks = [pc] ∧
      pc.sm_mask = some ("~" ++ pyHex (2 ^ 3 - 1)) ∧
      parseHexLit (pyHex (2 ^ 3 - 1)) = some (2 ^ 3 - 1) ∧
      (∀ j, (2 ^ 3 - 1).testBit j = decide (j < 3)) ∧
      (3 = 5 → "~" ++ pyHex (2 ^ 3 - 1) = "~0x1f") :=
  ⟨by decide, generate_config_libsmctrl_mask 0 54 3 10 ⟨true, 0, true, 0⟩ (by decide)⟩

/-! ## Facts about lowercasing -/

theorem pyLowerChar_idem (c : Char) : pyLowerChar (pyLowerChar c) = pyLowerChar c := by
  by_cases h1 : 65 ≤ c.toNat ∧ c.toNat ≤ 90
  · have e1 : pyLowerChar c = Char.ofNat (c.toNat + 32) := by
      unfold pyLowerChar; rw [if_pos h1]
    have hvalid : Nat.isValidChar (c.toNat + 32) := Or.inl (by omega)
    have hv : (Char.ofNat (c.toNat + 32)).toNat = c.toNat + 32 := by
      unfold Char.ofNat; rw [dif_pos hvalid]; rfl
    rw [e1]
    unfold pyLowerChar
    rw [hv, if_neg (by omega)]
  · have e1 : pyLowerChar c = c := by unfold pyLowerChar; rw [if_neg h1]
    rw [e1, e1]

theorem pyLower_idem (s : String) : pyLower (pyLower s) = pyLower s := by
  show (⟨(s.data.map pyLowerChar).map pyLowerChar⟩ : String) = ⟨s.data.map pyLowerChar⟩
  congr 1
  rw [List.map_map]
  exact List.map_congr_left (fun c _ => pyLowerChar_idem c)

/-! ## C3: the mig branch accepts only enumerated TPC counts -/

theorem MIG_CONFIGS_eq_none (a : Nat) (h : a ∉ ([7, 14, 21, 28, 49] : List Nat)) :
    MIG_CONFIGS a = none := by
  simp only [List.mem_cons, List.not_mem_nil, or_false] at h
  push_neg at h
  obtain ⟨h7, h14, h21, h28, h49⟩ := h
  simp [MIG_CONFIGS, h7, h14, h21, h28, h49]

/-- C3: for every active-TPC count outside the enumeration 7, 14, 21, 28,
49, generate_config with method mig raises, whatever the nvidia-smi
outcomes are: either MiG is unavailable, or the MIG_CONFIGS lookup has no
entry for the count. -/
theorem generate_config_mig_rejects (a : Nat)
    (h : a ∉ ([7, 14, 21, 28, 49] : List Nat)) :
    ∀ (d : Int) (t : Nat) (i : Int) (env : MigEnv),
      ∃ msg, generate_config d "mig" t a i env = .error msg := by
  intro d t i env
  simp only [generate_config]
  rw [if_neg (by decide), if_neg (by decide), if_pos (by decide)]
  by_cases hl : ¬ env.listExited ∨ env.listStatus = 6
  · rw [if_pos hl]; exact ⟨_, rfl⟩
  · rw [if_neg hl, MIG_CONFIGS_eq_none a h]; exact ⟨_, rfl⟩

/-- Witness for C3 at active = 5 with nvidia-smi reporting success. -/
theorem generate_config_mig_rejects_witness :
    (5 ∉ ([7, 14, 21, 28, 49] : List Nat)) ∧
      ∃ msg, generate_config 0 "mig" 54 5 10 ⟨true, 0, true, 0⟩ = .error msg :=
  ⟨by decide, generate_config_mig_rejects 5 (by decide) 0 54 10 ⟨true, 0, true, 0⟩⟩

/-! ## C6: dispatch on the partitioning-method name -/

/-- C6 (amended): a method whose lowercased form is outside the set mps,
libsmctrl, mig makes generate_config fail with an error naming the
method, and no configuration is produced. -/
theorem generate_config_unknown_method (m : String)
    (h : pyLower m ∉ (["mps", "libsmctrl", "mig"] : List String)) :
    ∀ (d : Int) (t a : Nat) (i : Int) (env : MigEnv),
      generate_config d m t a i env = .error ("Unknown partitioning type: " ++ m) := by
  intro d t a i env
  simp only [List.mem_cons, List.not_mem_nil, or_false] at h
  push_neg at h
  obtain ⟨h1, h2, h3⟩ := h
  simp only [generate_config]
  rw [if_neg h1, if_neg h2, if_neg h3]

/-- Witness for C6 (amended) at the method name foo. -/
theorem generate_config_unknown_method_witness :
    (pyLower "foo" ∉ (["mps", "libsmctrl", "mig"] : List String)) ∧
      generate_config 0 "foo" 54 5 10 ⟨true, 0, true, 0⟩ =
        .error ("Unknown partitioning type: " ++ "foo") :=
  ⟨by decide, generate_config_unknown_method "foo" (by decide) 0 54 5 10 ⟨true, 0, true, 0⟩⟩

/-- Counterexample to C6 as stated: the method name MPS is not a member of
the closed set of strings mps, libsmctrl, mig, yet generate_config
succeeds on it (the dispatch lowercases first). -/
theorem generate_config_unknown_method_counterexample :
    ("MPS" ∉ (["mps", "libsmctrl", "mig"] : List String)) ∧
      (generate_config 0 "MPS" 4 2 10 ⟨true, 0, true, 0⟩).toOption.isSome = true := by
  constructor
  · decide
  · decide

/-! ## C9: the dispatch is case-insensitive, the produced strings are not -/

/-- Which arm of the generate_config dispatch a method name selects. -/
def branchOf (m : String) : Nat :=
  if pyLower m = "mps" then 0
  else if pyLower m = "libsmctrl" then 1
  else if pyLower m = "mig" then 2
  else 3

/-- The partitioning-relevant fields of a produced configuration: the
mps_thread_percentage and sm_mask of each benchmark. -/
def partitionFields (c : OverallConfig) : List (Option ℚ × Option String) :=
  c.benchmarks.map (fun pc => (pc.mps_thread_percentage, pc.sm_mask))

/-- C9 (amended): a method name and its lowercased form select the same
dispatch arm, succeed or fail together, and agree on the partitioning
fields of the produced configuration; the full results can still differ,
because the original-case name is embedded in the log_name, scenario name
and error message. -/
theorem generate_config_case_insensitive (m : String) (d : Int) (t a : Nat)
    (i : Int) (env : MigEnv) :
    branchOf (pyLower m) = branchOf m ∧
      (generate_config d (pyLower m) t a i env).toOption.map partitionFields =
        (generate_config d m t a i env).toOption.map partitionFields := by
  have hll : pyLower (pyLower m) = pyLower m := pyLower_idem m
  constructor
  · unfold branchOf
    rw [hll]
  · simp only [generate_config]
    rw [hll]
    by_cases h1 : pyLower m = "mps"
    · rw [if_pos h1, if_pos h1]; rfl
    · rw [if_neg h1, if_neg h1]
      by_cases h2 : pyLower m = "libsmctrl"
      · rw [if_pos h2, if_pos h2]
        cases parseBin (List.replicate a '1') with
        | error e => rfl
        | ok v => rfl
      · rw [if_neg h2, if_neg h2]
        by_cases h3 : pyLower m = "mig"
        · rw [if_pos h3, if_pos h3]
          by_cases h4 : ¬ env.listExited ∨ env.listStatus = 6
          · rw [if_pos h4, if_pos h4]
          · rw [if_neg h4, if_neg h4]
            cases MIG_CONFIGS a with
            | none => rfl
            | some cfg =>
              by_cases h5 : ¬ env.createExited ∨ env.createStatus ≠ 0
              · simp only [if_pos h5]
              · simp only [if_neg h5]
                rfl
        · rw [if_neg h3, if_neg h3]; rfl

/-- Counterexample to C9 as stated: the method names MPS and mps take the
same branch but do not produce the same result (the log_name and scenario
name embed the original-case string). -/
theorem generate_config_case_insensitive_counterexample :
    (generate_config 0 "MPS" 4 2 10 ⟨true, 0, true, 0⟩).toOption ≠
      (generate_config 0 "mps" 4 2 10 ⟨true, 0, true, 0⟩).toOption := by
  decide

/-! ## C7: the driver exits with status 22 on invalid unit counts -/

/-- C7: an invalid unit-count argument (non-positive user-specified total,
non-positive starting count, or, outside MiG mode, a total exceeding the
detected TPC count) makes the driver exit with status 22 before any
runner launch. -/
theorem driver_invalid_count_exits_22 (args : DriverArgs) (env : DriverEnv)
    (h : (∃ tc, args.tpc_count = some tc ∧ tc ≤ 0) ∨ args.start_count ≤ 0 ∨
      (args.mig = false ∧ args.tpc_count.getD env.detected > env.detected)) :
    driver args env = .error 22 := by
  cases hc : args.tpc_count with
  | none =>
    unfold driver
    rw [hc]
    show driverRest args env env.detected = .error 22
    rcases h with ⟨tc, htc, _⟩ | hs | ⟨hm, hgt⟩
    · rw [hc] at htc; exact absurd htc (by simp)
    · unfold driverRest; rw [if_pos hs]
    · rw [hc] at hgt
      simp only [Option.getD_none] at hgt
      omega
  | some tc =>
    unfold driver
    rw [hc]
    show (if tc ≤ 0 then .error 22 else driverRest args env tc) = .error 22
    by_cases hle : tc ≤ 0
    · rw [if_pos hle]
    · rw [if_neg hle]
      unfold driverRest
      rcases h with ⟨tc2, htc2, hle2⟩ | hs | ⟨hm, hgt⟩
      · rw [hc] at htc2
        injection htc2 with he
        omega
      · rw [if_pos hs]
      · by_cases hs : args.start_count ≤ 0
        · rw [if_pos hs]
        · rw [if_neg hs, hm]
          rw [hc] at hgt
          simp only [Option.getD_some] at hgt
          rw [if_neg (by simp), if_pos hgt]

/-- Witness for C7: a user-specified total of -1 exits with 22. -/
theorem driver_invalid_count_exits_22_witness :
    ((∃ tc, (some (-1 : Int)) = some tc ∧ tc ≤ 0) ∨ (1 : Int) ≤ 0 ∨
      (false = false ∧ (some (-1 : Int)).getD 4 > 4)) ∧
      driver ⟨some (-1), 1, false, 0, 10⟩ ⟨4⟩ = .error 22 :=
  ⟨Or.inl ⟨-1, rfl, by omega⟩,
    driver_invalid_count_exits_22 ⟨some (-1), 1, false, 0, 10⟩ ⟨4⟩
      (Or.inl ⟨-1, rfl, by omega⟩)⟩

/-! ## C2: the mps percentage -/

theorem roundHalfEven_abs_le (q : ℚ) : |(roundHalfEven q : ℚ) - q| ≤ 1/2 := by
  simp only [roundHalfEven]
  have hfl : (⌊q⌋ : ℚ) ≤ q := Int.floor_le q
  have hfu : q < ⌊q⌋ + 1 := Int.lt_floor_add_one q
  split_ifs with h1 h2 h3
  · rw [abs_le]; constructor <;> linarith
  · push_cast
    rw [abs_le]; constructor <;> linarith
  · rw [abs_le]
    have hq : q - (⌊q⌋ : ℚ) = 1/2 := by linarith
    constructor <;> linarith
  · push_cast
    rw [abs_le]
    have hq : q - (⌊q⌋ : ℚ) = 1/2 := by linarith
    constructor <;> linarith

theorem pyRound4_abs_le (q : ℚ) : |pyRound4 q - q| ≤ 1/20000 := by
  unfold pyRound4
  have h := roundHalfEven_abs_le (q * 10000)
  have he : (roundHalfEven (q * 10000) : ℚ) / 10000 - q =
      ((roundHalfEven (q * 10000) : ℚ) - q * 10000) / 10000 := by ring
  rw [he, abs_div, abs_of_pos (by norm_num : (0 : ℚ) < 10000)]
  rw [div_le_iff₀ (by norm_num : (0 : ℚ) < 10000)]
  linarith

/-- C2 (amended): for 0 < active and active at most total, the mps branch
of generate_config sets mps_thread_percentage to mpsPercentage, a value
that never exceeds 100, is an integer multiple of 1/10000, and lies
within 3/20000 of the exact percentage 100*active/total. The distance can
exceed the epsilon 1/10000 itself, because the added epsilon and the
half-unit rounding error compound. -/
theorem mps_percentage_bound (a t : Nat) (h0 : 0 < a) (hat : a ≤ t) :
    (∀ (d i : Int) (env : MigEnv),
      (generate_config d "mps" t a i env).toOption.map
          (fun c => c.benchmarks.map (fun pc => pc.mps_thread_percentage)) =
        some [some (mpsPercentage a t)]) ∧
      mpsPercentage a t ≤ 100 ∧
      |mpsPercentage a t - 100 * (a : ℚ) / (t : ℚ)| ≤ 3/20000 ∧
      ∃ k : ℤ, mpsPercentage a t = (k : ℚ) / 10000 := by
  have htn : 0 < t := lt_of_lt_of_le h0 hat
  have ht : (0 : ℚ) < (t : ℚ) := by exact_mod_cast htn
  set x : ℚ := 100 * (a : ℚ) / (t : ℚ) with hxdef
  have hx0 : 0 ≤ x := by positivity
  have hx100 : x ≤ 100 := by
    rw [hxdef, div_le_iff₀ ht]
    have hc : (a : ℚ) ≤ (t : ℚ) := by exact_mod_cast hat
    linarith
  have hr := pyRound4_abs_le (x + 1/10000)
  have hr2 := abs_le.mp hr
  refine ⟨?_, min_le_left _ _, ?_, ?_⟩
  · intro d i env
    simp only [generate_config]
    rw [if_pos (by decide)]
    rfl
  · show |min 100 (pyRound4 (x + 1/10000)) - x| ≤ 3/20000
    rcases min_cases (100 : ℚ) (pyRound4 (x + 1/10000)) with ⟨hm, hle⟩ | ⟨hm, hlt⟩
    · rw [hm, abs_le]
      constructor <;> linarith
    · rw [hm, abs_le]
      constructor <;> linarith
  · show ∃ k : ℤ, min 100 (pyRound4 (x + 1/10000)) = (k : ℚ) / 10000
    by_cases hm : (100 : ℚ) ≤ pyRound4 (x + 1/10000)
    · rw [min_eq_left hm]
      exact ⟨1000000, by norm_num⟩
    · rw [min_eq_right (le_of_not_le hm)]
      exact ⟨roundHalfEven ((x + 1/10000) * 10000), rfl⟩

/-- Witness for C2 (amended) at active = 2 of total = 3. -/
theorem mps_percentage_bound_witness :
    (0 < 2 ∧ 2 ≤ 3) ∧
      ((∀ (d i : Int) (env : MigEnv),
        (generate_config d "mps" 3 2 i env).toOption.map
            (fun c => c.benchmarks.map (fun pc => pc.mps_thread_percentage)) =
          some [some (mpsPercentage 2 3)]) ∧
        mpsPercentage 2 3 ≤ 100 ∧
        |mpsPercentage 2 3 - 100 * ((2 : Nat) : ℚ) / ((3 : Nat) : ℚ)| ≤ 3/20000 ∧
        ∃ k : ℤ, mpsPercentage 2 3 = (k : ℚ) / 10000) :=
  ⟨⟨by decide, by decide⟩, mps_percentage_bound 2 3 (by decide) (by decide)⟩

/-- Counterexample to C2 as stated: at active = 2 of total = 3 the stored
percentage is 66.6668, which is farther than the epsilon 1/10000 from the
exact percentage 200/3 = 66.6666...; the distance is 1/7500, about
0.000133. No rounding tie is involved (the fractional part is 2/3), so
the exact-rational computation here agrees with the float program, which
also stores 66.6668. -/
theorem mps_percentage_epsilon_counterexample :
    (0 < 2 ∧ (2 : Nat) ≤ 3) ∧
      (generate_config 0 "mps" 3 2 10 ⟨true, 0, true, 0⟩).toOption.map
          (fun c => c.benchmarks.map (fun pc => pc.mps_thread_percentage)) =
        some [some (mpsPercentage 2 3)] ∧
      mpsPercentage 2 3 = 666668/10000 ∧
      ¬ |mpsPercentage 2 3 - 100 * (2 : ℚ) / 3| ≤ 1/10000 := by
  have hx : (100 * (2 : ℚ) / 3 : ℚ) = 200/3 := by norm_num
  have hf : ⌊(200/3 + 1/10000 : ℚ) * 10000⌋ = 666667 := by
    rw [show ((200/3 + 1/10000 : ℚ) * 10000 : ℚ) = 2000003/3 by norm_num]
    rw [Int.floor_eq_iff]
    constructor <;> norm_num
  have h2 : roundHalfEven ((200/3 + 1/10000 : ℚ) * 10000) = 666668 := by
    simp only [roundHalfEven]
    rw [hf]
    norm_num
  have h3 : pyRound4 (200/3 + 1/10000) = 666668/10000 := by
    unfold pyRound4
    rw [h2]
    norm_num
  have key : mpsPercentage 2 3 = 666668/10000 := by
    show min 100 (pyRound4 (100 * ((2 : Nat) : ℚ) / ((3 : Nat) : ℚ) + 1/10000)) =
      666668/10000
    rw [show (100 * ((2 : Nat) : ℚ) / ((3 : Nat) : ℚ) : ℚ) = 200/3 by norm_num, h3]
    rw [min_eq_right (by norm_num)]
  refine ⟨⟨by decide, by decide⟩, ?_, key, ?_⟩
  · simp only [generate_config]
    rw [if_pos (by decide)]
    rfl
  · rw [key, hx]
    rw [show ((666668/10000 : ℚ) - 200/3 : ℚ) = 1/7500 by norm_num]
    rw [abs_of_pos (by norm_num)]
    norm_num

/-! ## The pairing loop and the duration collection -/

/-- Concatenation of the pair differences of a list of timestamp arrays. -/
def concatPairs (ls : List (List ℚ)) : List ℚ :=
  ls.foldr (fun ts acc => pairDiffs ts ++ acc) []

theorem twoStepInduction {P : List ℚ → Prop} (h0 : P []) (h1 : ∀ a, P [a])
    (h2 : ∀ a b l, P l → P (a :: b :: l)) : ∀ l, P l
  | [] => h0
  | [a] => h1 a
  | a :: b :: l => h2 a b l (twoStepInduction h0 h1 h2 l)

theorem pairLoopIdx_spec : ∀ l back : List ℚ,
    pairLoopIdx (back ++ l) back.length =
      if l.length % 2 = 0 then .ok (pairDiffs l)
      else .error "IndexError: list index out of range" := by
  refine twoStepInduction ?_ ?_ ?_
  · intro back
    rw [pairLoopIdx, if_neg (by simp)]
    simp [pairDiffs]
  · intro a back
    have h1 : (back ++ [a])[back.length + 1]? = none := by
      apply List.getElem?_eq_none
      simp
    rw [pairLoopIdx, if_pos (by simp), h1]
    simp
  · intro a b l ih back
    have h1 : (back ++ a :: b :: l)[back.length + 1]? = some b := by
      rw [List.getElem?_append_right (by omega)]
      simp
    have h3 : (back ++ a :: b :: l)[back.length]? = some a := by
      rw [List.getElem?_append_right (le_refl _)]
      simp
    have h2 : pairLoopIdx (back ++ a :: b :: l) (back.length + 2) =
        if l.length % 2 = 0 then .ok (pairDiffs l)
        else .error "IndexError: list index out of range" := by
      rw [show back ++ a :: b :: l = (back ++ [a, b]) ++ l from by simp]
      rw [show back.length + 2 = (back ++ [a, b]).length from by simp]
      exact ih (back ++ [a, b])
    have hlt : back.length < (back ++ a :: b :: l).length := by simp
    rw [pairLoopIdx, if_pos hlt, h1, h3, h2]
    by_cases hpar : l.length % 2 = 0
    · rw [if_pos hpar, if_pos (by simp; omega)]
      simp [pairDiffs]
    · rw [if_neg hpar, if_neg (by simp; omega)]

theorem pairLoopIdx_eq (l : List ℚ) :
    pairLoopIdx l 0 =
      if l.length % 2 = 0 then .ok (pairDiffs l)
      else .error "IndexError: list index out of range" := by
  have h := pairLoopIdx_spec l []
  simpa using h

theorem pairDiffs_ne_nil (ts : List ℚ) (hne : ts ≠ []) (hev : ts.length % 2 = 0) :
    pairDiffs ts ≠ [] := by
  match ts with
  | [] => exact absurd rfl hne
  | [a] => simp at hev
  | a :: b :: rest => simp [pairDiffs]

theorem concatPairs_ne_nil (ls : List (List ℚ)) (h : ∃ ts ∈ ls, pairDiffs ts ≠ []) :
    concatPairs ls ≠ [] := by
  induction ls with
  | nil => simp at h
  | cons t ts ih =>
    obtain ⟨u, hu, hne⟩ := h
    rcases List.mem_cons.mp hu with rfl | hu2
    · simp only [concatPairs, List.foldr_cons]
      intro hcontra
      exact hne (List.append_eq_nil.mp hcontra).1
    · simp only [concatPairs, List.foldr_cons]
      intro hcontra
      exact ih ⟨u, hu2, hne⟩ (List.append_eq_nil.mp hcontra).2

theorem collectDurations_succeeds (tk : String) : ∀ es : List (List (String × List ℚ)),
    (∀ e ∈ es, ∀ ts, dictGet e tk = some ts → ts.length % 2 = 0) →
    collectDurations tk es = .ok (concatPairs (es.filterMap (fun e => dictGet e tk))) := by
  intro es
  induction es with
  | nil => intro _; rfl
  | cons e rest ih =>
    intro h
    have hrest := ih (fun e2 he2 ts hts => h e2 (List.mem_cons_of_mem e he2) ts hts)
    simp only [collectDurations]
    cases hd : dictGet e tk with
    | none =>
      rw [hrest]
      simp [concatPairs, List.filterMap_cons, hd]
    | some ts =>
      have hev := h e (List.mem_cons_self e rest) ts hd
      simp only []
      rw [pairLoopIdx_eq, if_pos hev, hrest]
      simp [concatPairs, List.filterMap_cons, hd]

theorem collectDurations_ok (tk : String) : ∀ (es : List (List (String × List ℚ)))
    (ds : List ℚ), collectDurations tk es = .ok ds →
    ds = concatPairs (es.filterMap (fun e => dictGet e tk)) := by
  intro es
  induction es with
  | nil =>
    intro ds h
    simp only [collectDurations] at h
    injection h with h
    simp [concatPairs, h.symm]
  | cons e rest ih =>
    intro ds h
    simp only [collectDurations] at h
    cases hd : dictGet e tk with
    | none =>
      rw [hd] at h
      rw [ih ds h]
      simp [concatPairs, List.filterMap_cons, hd]
    | some ts =>
      rw [hd] at h
      simp only [] at h
      rw [pairLoopIdx_eq] at h
      by_cases hev : ts.length % 2 = 0
      · rw [if_pos hev] at h
        cases hrest : collectDurations tk rest with
        | error e2 =>
          rw [hrest] at h
          simp at h
        | ok rest_ds =>
          rw [hrest] at h
          simp only [Except.ok.injEq] at h
          rw [h.symm, ih rest_ds hrest]
          simp [concatPairs, List.filterMap_cons, hd]
      · rw [if_neg hev] at h
        simp at h

theorem collectDurations_error_of_odd (tk : String) : ∀ es : List (List (String × List ℚ)),
    (∃ e ∈ es, ∃ ts, dictGet e tk = some ts ∧ ts.length % 2 = 1) →
    ∃ msg, collectDurations tk es = .error msg := by
  intro es
  induction es with
  | nil => intro h; simp at h
  | cons e rest ih =>
    intro h
    obtain ⟨e2, he2, ts, hts, hodd⟩ := h
    rcases List.mem_cons.mp he2 with rfl | he3
    · refine ⟨"IndexError: list index out of range", ?_⟩
      simp only [collectDurations]
      rw [hts]
      simp only []
      rw [pairLoopIdx_eq, if_neg (by omega)]
    · simp only [collectDurations]
      cases hd : dictGet e tk with
      | none => exact ih ⟨e2, he3, ts, hts, hodd⟩
      | some ts2 =>
        simp only []
        cases hp : pairLoopIdx ts2 0 with
        | error msg => exact ⟨msg, rfl⟩
        | ok ds =>
          obtain ⟨msg, hmsg⟩ := ih ⟨e2, he3, ts, hts, hodd⟩
          rw [hmsg]
          exact ⟨msg, rfl⟩

theorem collectDurations_all_none (tk : String) : ∀ es : List (List (String × List ℚ)),
    (∀ e ∈ es, dictGet e tk = none) → collectDurations tk es = .ok [] := by
  intro es
  induction es with
  | nil => intro _; rfl
  | cons e rest ih =>
    intro h
    simp only [collectDurations]
    rw [h e (List.mem_cons_self e rest)]
    exact ih (fun e2 he2 => h e2 (List.mem_cons_of_mem e he2))

/-! ## Fold lemmas for the min and max of the duration list -/

theorem foldl_min_le_init : ∀ (ds : List ℚ) (d : ℚ), List.foldl min d ds ≤ d := by
  intro ds
  induction ds with
  | nil => intro d; simp
  | cons a rest ih =>
    intro d
    calc List.foldl min (min d a) rest ≤ min d a := ih (min d a)
      _ ≤ d := min_le_left _ _

theorem foldl_min_le : ∀ (ds : List ℚ) (d x : ℚ), x ∈ d :: ds →
    List.foldl min d ds ≤ x := by
  intro ds
  induction ds with
  | nil =>
    intro d x hx
    rcases List.mem_cons.mp hx with heq | h
    · rw [heq]; simp
    · simp at h
  | cons a rest ih =>
    intro d x hx
    rcases List.mem_cons.mp hx with heq | h
    · rw [heq, List.foldl_cons]
      calc List.foldl min (min d a) rest ≤ min d a := foldl_min_le_init rest _
        _ ≤ d := min_le_left _ _
    · rcases List.mem_cons.mp h with heq | h2
      · rw [heq, List.foldl_cons]
        calc List.foldl min (min d a) rest ≤ min d a := foldl_min_le_init rest _
          _ ≤ a := min_le_right _ _
      · exact ih (min d a) x (List.mem_cons_of_mem _ h2)

theorem foldl_min_mem : ∀ (ds : List ℚ) (d : ℚ), List.foldl min d ds ∈ d :: ds := by
  intro ds
  induction ds with
  | nil => intro d; simp
  | cons a rest ih =>
    intro d
    have h := ih (min d a)
    rcases List.mem_cons.mp h with he | hm
    · rcases min_choice d a with hd | ha
      · rw [List.foldl_cons, he, hd]
        exact List.mem_cons_self _ _
      · rw [List.foldl_cons, he, ha]
        exact List.mem_cons_of_mem _ (List.mem_cons_self _ _)
    · rw [List.foldl_cons]
      exact List.mem_cons_of_mem _ (List.mem_cons_of_mem _ hm)

theorem foldl_max_le_init : ∀ (ds : List ℚ) (d : ℚ), d ≤ List.foldl max d ds := by
  intro ds
  induction ds with
  | nil => intro d; simp
  | cons a rest ih =>
    intro d
    calc d ≤ max d a := le_max_left _ _
      _ ≤ List.foldl max (max d a) rest := ih (max d a)

theorem foldl_max_le : ∀ (ds : List ℚ) (d x : ℚ), x ∈ d :: ds →
    x ≤ List.foldl max d ds := by
  intro ds
  induction ds with
  | nil =>
    intro d x hx
    rcases List.mem_cons.mp hx with heq | h
    · rw [heq]; simp
    · simp at h
  | cons a rest ih =>
    intro d x hx
    rcases List.mem_cons.mp hx with heq | h
    · rw [heq, List.foldl_cons]
      calc d ≤ max d a := le_max_left _ _
        _ ≤ List.foldl max (max d a) rest := foldl_max_le_init rest _
    · rcases List.mem_cons.mp h with heq | h2
      · rw [heq, List.foldl_cons]
        calc a ≤ max d a := le_max_right _ _
          _ ≤ List.foldl max (max d a) rest := foldl_max_le_init rest _
      · exact ih (max d a) x (List.mem_cons_of_mem _ h2)

theorem foldl_max_mem : ∀ (ds : List ℚ) (d : ℚ), List.foldl max d ds ∈ d :: ds := by
  intro ds
  induction ds with
  | nil => intro d; simp
  | cons a rest ih =>
    intro d
    have h := ih (max d a)
    rcases List.mem_cons.mp h with he | hm
    · rcases max_choice d a with hd | ha
      · rw [List.foldl_cons, he, hd]
        exact List.mem_cons_self _ _
      · rw [List.foldl_cons, he, ha]
        exact List.mem_cons_of_mem _ (List.mem_cons_self _ _)
    · rw [List.foldl_cons]
      exact List.mem_cons_of_mem _ (List.mem_cons_of_mem _ hm)

/-! ## C5: plugin_summary_values returns min, max and mean of the paired
duration samples -/

theorem plugin_summary_values_ok (r : ParsedFile) (tk : String) (out : List ℚ)
    (h : plugin_summary_values r tk = .ok out) :
    ∃ mn mx av, out = [mn, mx, av] ∧
      concatPairs (r.times.filterMap (fun e => dictGet e tk)) ≠ [] ∧
      mn ∈ (concatPairs (r.times.filterMap (fun e => dictGet e tk))).map (· * 1000) ∧
      (∀ x ∈ concatPairs (r.times.filterMap (fun e => dictGet e tk)), mn ≤ x * 1000) ∧
      mx ∈ (concatPairs (r.times.filterMap (fun e => dictGet e tk))).map (· * 1000) ∧
      (∀ x ∈ concatPairs (r.times.filterMap (fun e => dictGet e tk)), x * 1000 ≤ mx) ∧
      av = (concatPairs (r.times.filterMap (fun e => dictGet e tk))).sum /
        ((concatPairs (r.times.filterMap (fun e => dictGet e tk))).length : ℚ) * 1000 := by
  unfold plugin_summary_values at h
  cases hc : collectDurations tk r.times with
  | error e => rw [hc] at h; simp at h
  | ok ds =>
    rw [hc] at h
    have hds := collectDurations_ok tk r.times ds hc
    cases ds with
    | nil => simp at h
    | cons d rest =>
      simp only [Except.ok.injEq] at h
      refine ⟨List.foldl min d rest * 1000, List.foldl max d rest * 1000,
        (d :: rest).sum / ((d :: rest).length : ℚ) * 1000, h.symm,
        ?_, ?_, ?_, ?_, ?_, ?_⟩ <;> rw [← hds]
      · simp
      · exact List.mem_map.mpr ⟨List.foldl min d rest, foldl_min_mem rest d, rfl⟩
      · intro x hx
        exact mul_le_mul_of_nonneg_right (foldl_min_le rest d x hx) (by norm_num)
      · exact List.mem_map.mpr ⟨List.foldl max d rest, foldl_max_mem rest d, rfl⟩
      · intro x hx
        exact mul_le_mul_of_nonneg_right (foldl_max_le rest d x hx) (by norm_num)

/-- C5: whenever plugin_summary_values returns, its result is the triple
of minimum, maximum and arithmetic mean, scaled to milliseconds, of the
duration samples obtained by differencing non-overlapping consecutive
pairs of each present times-key array; on the record with one
execute_times array holding 1.0 and 1.002 the result is the triple
2.0, 2.0, 2.0 milliseconds. -/
theorem plugin_summary_values_spec :
    (∀ (r : ParsedFile) (tk : String) (out : List ℚ),
      plugin_summary_values r tk = .ok out →
      ∃ mn mx av, out = [mn, mx, av] ∧
        concatPairs (r.times.filterMap (fun e => dictGet e tk)) ≠ [] ∧
        mn ∈ (concatPairs (r.times.filterMap (fun e => dictGet e tk))).map (· * 1000) ∧
        (∀ x ∈ concatPairs (r.times.filterMap (fun e => dictGet e tk)), mn ≤ x * 1000) ∧
        mx ∈ (concatPairs (r.times.filterMap (fun e => dictGet e tk))).map (· * 1000) ∧
        (∀ x ∈ concatPairs (r.times.filterMap (fun e => dictGet e tk)), x * 1000 ≤ mx) ∧
        av = (concatPairs (r.times.filterMap (fun e => dictGet e tk))).sum /
          ((concatPairs (r.times.filterMap (fun e => dictGet e tk))).length : ℚ) * 1000) ∧
      plugin_summary_values ⟨some "1", [[("execute_times", [1, 1002/1000])]], "s"⟩
        "execute_times" = .ok [2, 2, 2] := by
  constructor
  · exact plugin_summary_values_ok
  · simp [plugin_summary_values, collectDurations, dictGet, pairLoopIdx]
    norm_num

/-- Witness for C5, instantiating the general part at the concrete record
of the round-trip example. -/
theorem plugin_summary_values_spec_witness :
    (plugin_summary_values ⟨some "1", [[("execute_times", [1, 1002/1000])]], "s"⟩
        "execute_times" = .ok [2, 2, 2]) ∧
      ∃ mn mx av, ([2, 2, 2] : List ℚ) = [mn, mx, av] ∧
        concatPairs ((([[("execute_times", [1, 1002/1000])]] :
            List (List (String × List ℚ)))).filterMap
          (fun e => dictGet e "execute_times")) ≠ [] ∧
        mn ∈ (concatPairs (([[("execute_times", [1, 1002/1000])]] :
            List (List (String × List ℚ))).filterMap
          (fun e => dictGet e "execute_times"))).map (· * 1000) ∧
        (∀ x ∈ concatPairs (([[("execute_times", [1, 1002/1000])]] :
            List (List (String × List ℚ))).filterMap
          (fun e => dictGet e "execute_times")), mn ≤ x * 1000) ∧
        mx ∈ (concatPairs (([[("execute_times", [1, 1002/1000])]] :
            List (List (String × List ℚ))).filterMap
          (fun e => dictGet e "execute_times"))).map (· * 1000) ∧
        (∀ x ∈ concatPairs (([[("execute_times", [1, 1002/1000])]] :
            List (List (String × List ℚ))).filterMap
          (fun e => dictGet e "execute_times")), x * 1000 ≤ mx) ∧
        av = (concatPairs (([[("execute_times", [1, 1002/1000])]] :
            List (List (String × List ℚ))).filterMap
          (fun e => dictGet e "execute_times"))).sum /
          ((concatPairs (([[("execute_times", [1, 1002/1000])]] :
            List (List (String × List ℚ))).filterMap
          (fun e => dictGet e "execute_times"))).length : ℚ) * 1000 :=
  ⟨plugin_summary_values_spec.2,
    plugin_summary_values_spec.1 ⟨some "1", [[("execute_times", [1, 1002/1000])]], "s"⟩
      "execute_times" [2, 2, 2] plugin_summary_values_spec.2⟩

/-! ## C8: partiality of plugin_summary_values at its interface -/

theorem plugin_summary_values_ok_of_wf (r : ParsedFile) (tk : String)
    (hne : ∃ e ∈ r.times, ∃ ts, dictGet e tk = some ts ∧ ts ≠ [])
    (hev : ∀ e ∈ r.times, ∀ ts, dictGet e tk = some ts → ts.length % 2 = 0) :
    ∃ out, plugin_summary_values r tk = .ok out := by
  have hcoll := collectDurations_succeeds tk r.times hev
  have hdne : concatPairs (r.times.filterMap (fun e => dictGet e tk)) ≠ [] := by
    apply concatPairs_ne_nil
    obtain ⟨e, he, ts, hts, htsne⟩ := hne
    exact ⟨ts, List.mem_filterMap.mpr ⟨e, he, hts⟩,
      pairDiffs_ne_nil ts htsne (hev e he ts hts)⟩
  unfold plugin_summary_values
  rw [hcoll]
  cases hcp : concatPairs (r.times.filterMap (fun e => dictGet e tk)) with
  | nil => exact absurd hcp hdne
  | cons d ds => exact ⟨_, rfl⟩

/-- C8 (amended): plugin_summary_values raises when some present times-key
array has odd length (indexing one past the end), and when no entry holds
the times key (minimum of an empty list); when at least one entry holds a
nonempty array under the key and every present array has even length, it
returns normally. -/
theorem plugin_summary_values_partial :
    (∀ (r : ParsedFile) (tk : String),
      (∃ e ∈ r.times, ∃ ts, dictGet e tk = some ts ∧ ts.length % 2 = 1) →
      ∃ msg, plugin_summary_values r tk = .error msg) ∧
    (∀ (r : ParsedFile) (tk : String),
      (∀ e ∈ r.times, dictGet e tk = none) →
      plugin_summary_values r tk = .error "ValueError: min arg is an empty sequence") ∧
    (∀ (r : ParsedFile) (tk : String),
      (∃ e ∈ r.times, ∃ ts, dictGet e tk = some ts ∧ ts ≠ []) →
      (∀ e ∈ r.times, ∀ ts, dictGet e tk = some ts → ts.length % 2 = 0) →
      ∃ out, plugin_summary_values r tk = .ok out) := by
  refine ⟨?_, ?_, plugin_summary_values_ok_of_wf⟩
  · intro r tk h
    obtain ⟨msg, hmsg⟩ := collectDurations_error_of_odd tk r.times h
    refine ⟨msg, ?_⟩
    unfold plugin_summary_values
    rw [hmsg]
  · intro r tk h
    unfold plugin_summary_values
    rw [collectDurations_all_none tk r.times h]

/-- A record whose single times entry holds a nonempty even-length
execute_times array. -/
def okFile : ParsedFile := ⟨none, [[("execute_times", [3, 5])]], "x"⟩

/-- Witness for C8 (amended), instantiating the totality part at okFile. -/
theorem plugin_summary_values_partial_witness :
    (∃ e ∈ okFile.times, ∃ ts, dictGet e "execute_times" = some ts ∧ ts ≠ []) ∧
      (∀ e ∈ okFile.times, ∀ ts, dictGet e "execute_times" = some ts →
        ts.length % 2 = 0) ∧
      ∃ out, plugin_summary_values okFile "execute_times" = .ok out :=
  ⟨by decide, by decide,
    plugin_summary_values_partial.2.2 okFile "execute_times" (by decide) (by decide)⟩

/-- A record with one times entry that holds no keys at all. -/
def emptyKeyFile : ParsedFile := ⟨none, [[]], "s"⟩

/-- Counterexample to C8 as stated: every present times-key array of
emptyKeyFile is vacuously nonempty and even-length, yet the empty-minimum
error branch is reached, because no entry holds the key at all. -/
theorem plugin_summary_values_precondition_counterexample :
    (emptyKeyFile.times.all (fun e =>
      (dictGet e "execute_times").elim true
        (fun ts => !ts.isEmpty && ts.length % 2 == 0))) = true ∧
      plugin_summary_values emptyKeyFile "execute_times" =
        .error "ValueError: min arg is an empty sequence" := by
  exact ⟨by decide, rfl⟩

/-! ## C4: which files the aggregation loop skips, and what the others
contribute -/

/-- C4 (amended): the loop body of show_plots skips a file, logging a
reason, exactly when the parsed record lacks a label, its times list has
fewer than two entries, or its label does not parse as a number; a file
passing those checks whose times entries are well formed for the
configured key (some entry holds a nonempty array under the key and every
present array has even length) contributes one summary triplet under its
scenario name and numeric label. -/
theorem processFile_skip_contribute (tk : String) (r : ParsedFile) :
    ((∃ msg, processFile tk r = .skipped msg) ↔
      (r.label = none ∨ r.times.length < 2 ∨
        ∃ lab, r.label = some lab ∧ convert_to_float lab = none)) ∧
    (∀ lab v, r.label = some lab → convert_to_float lab = some v →
      ¬ r.times.length < 2 →
      (∃ e ∈ r.times, ∃ ts, dictGet e tk = some ts ∧ ts ≠ []) →
      (∀ e ∈ r.times, ∀ ts, dictGet e tk = some ts → ts.length % 2 = 0) →
      ∃ t3, processFile tk r = .contributed r.scenario_name v t3) := by
  constructor
  · cases hl : r.label with
    | none =>
      constructor
      · intro _
        exact Or.inl rfl
      · intro _
        refine ⟨"no label field in file", ?_⟩
        simp [processFile, hl]
    | some lab =>
      by_cases ht : r.times.length < 2
      · constructor
        · intro _
          exact Or.inr (Or.inl ht)
        · intro _
          refine ⟨"no recorded times in file", ?_⟩
          simp only [processFile, hl]
          rw [if_pos ht]
      · cases hcv : convert_to_float lab with
        | none =>
          constructor
          · intro _
            exact Or.inr (Or.inr ⟨lab, rfl, hcv⟩)
          · intro _
            refine ⟨"label is not a number", ?_⟩
            simp only [processFile, hl]
            rw [if_neg ht]
            simp [hcv]
        | some v =>
          constructor
          · rintro ⟨msg, hmsg⟩
            exfalso
            simp only [processFile, hl] at hmsg
            rw [if_neg ht] at hmsg
            simp only [hcv] at hmsg
            cases hp : plugin_summary_values r tk with
            | error e => rw [hp] at hmsg; simp at hmsg
            | ok t3 => rw [hp] at hmsg; simp at hmsg
          · rintro (h1 | h2 | ⟨lab2, hlab2, hcv2⟩)
            · exact absurd h1 (by simp)
            · exact absurd h2 ht
            · exfalso
              injection hlab2 with he
              rw [← he] at hcv2
              rw [hcv2] at hcv
              exact absurd hcv (by simp)
  · intro lab v hlab hcv ht hne hev
    obtain ⟨out, hout⟩ := plugin_summary_values_ok_of_wf r tk hne hev
    refine ⟨out, ?_⟩
    simp only [processFile, hlab]
    rw [if_neg ht]
    simp only [hcv]
    rw [hout]

/-- A record that passes every skip check and contributes a triplet. -/
def c4File : ParsedFile :=
  ⟨some "5", [[("execute_times", [1, 2])], [("execute_times", [3, 5])]], "sc"⟩

/-- Witness for C4 (amended): c4File is not skipped and contributes under
scenario sc with numeric label 5. -/
theorem processFile_skip_contribute_witness :
    (c4File.label = some "5" ∧ convert_to_float "5" = some 5 ∧
      ¬ c4File.times.length < 2) ∧
      ∃ t3, processFile "execute_times" c4File = .contributed "sc" 5 t3 :=
  ⟨⟨rfl, by decide, by decide⟩,
    (processFile_skip_contribute "execute_times" c4File).2 "5" 5 rfl (by decide)
      (by decide) (by decide) (by decide)⟩

/-- A record that passes every skip check but whose two times entries hold
no keys: processing it raises instead of contributing. -/
def crashFile : ParsedFile := ⟨some "1", [[], []], "s"⟩

/-- A well-formed record with two recorded timestamps in a single times
entry: it is skipped even though two timestamps were recorded. -/
def shortFile : ParsedFile := ⟨some "1", [[("execute_times", [1, 2])]], "s"⟩

/-- Counterexample to C4 as stated: crashFile is not skipped (label
present and numeric, two times entries) yet contributes nothing, as the
loop body raises on it; and shortFile holds two recorded timestamps yet
is skipped, because the skip check counts entries of the times list, not
timestamps. -/
theorem processFile_skip_counterexample :
    crashFile.label = some "1" ∧
      crashFile.times.length = 2 ∧
      convert_to_float "1" = some 1 ∧
      processFile "execute_times" crashFile =
        .crashed "ValueError: min arg is an empty sequence" ∧
      shortFile.label = some "1" ∧
      shortFile.times.map (fun e => dictGet e "execute_times") = [some [1, 2]] ∧
      processFile "execute_times" shortFile = .skipped "no recorded times in file" := by
  refine ⟨rfl, rfl, by decide, by decide, rfl, by decide, by decide⟩

/-! ## C10: later files overwrite earlier ones under the same key -/

theorem lookupAgg_cons (s : String) (v : ℚ) (t3 : List ℚ)
    (acc : List ((String × ℚ) × List ℚ)) (k : String × ℚ) :
    lookupAgg (((s, v), t3) :: acc) k =
      if (s, v) = k then some t3 else lookupAgg acc k := by
  by_cases hk : (s, v) = k
  · simp [lookupAgg, List.find?_cons, hk]
  · simp [lookupAgg, List.find?_cons, hk]

theorem lastContrib_cons (tk : String) (r : ParsedFile) (rs : List ParsedFile)
    (k : String × ℚ) :
    lastContrib tk (r :: rs) k =
      (lastContrib tk rs k).or
        (match processFile tk r with
         | .contributed s v t3 => if (s, v) = k then some t3 else none
         | _ => none) := by
  unfold lastContrib
  rw [List.reverse_cons, List.findSome?_append]
  congr 1
  cases hp : processFile tk r with
  | skipped msg => simp [List.findSome?, hp]
  | crashed msg => simp [List.findSome?, hp]
  | contributed s v t3 =>
    by_cases hk : (s, v) = k <;> simp [List.findSome?, hp, hk]

theorem showPlotsAgg_lookup (tk : String) : ∀ (files : List ParsedFile)
    (acc m : List ((String × ℚ) × List ℚ)),
    showPlotsAgg tk files acc = .ok m →
    ∀ k, lookupAgg m k = (lastContrib tk files k).or (lookupAgg acc k) := by
  intro files
  induction files with
  | nil =>
    intro acc m h k
    simp only [showPlotsAgg, Except.ok.injEq] at h
    rw [← h]
    rfl
  | cons r rs ih =>
    intro acc m h k
    simp only [showPlotsAgg] at h
    cases hp : processFile tk r with
    | skipped msg =>
      rw [hp] at h
      rw [ih acc m h k, lastContrib_cons, hp]
      simp [Option.or_none]
    | crashed msg =>
      rw [hp] at h
      simp at h
    | contributed s v t3 =>
      rw [hp] at h
      have h2 := ih (((s, v), t3) :: acc) m h k
      rw [h2, lastContrib_cons, hp, lookupAgg_cons]
      cases lastContrib tk rs k with
      | some t4 => rfl
      | none =>
        by_cases hk : (s, v) = k
        · simp [hk, Option.or]
        · simp [hk, Option.or]

/-- C10: when the aggregation loop of show_plots succeeds, the triplet
stored under any (scenario, label) key is the one contributed by the file
that contributed last under that key, in argument order; earlier triplets
are overwritten. -/
theorem show_plots_last_writer_wins (tk : String) (files : List ParsedFile)
    (m : List ((String × ℚ) × List ℚ)) (h : showPlotsAgg tk files [] = .ok m)
    (k : String × ℚ) :
    lookupAgg m k = lastContrib tk files k := by
  rw [showPlotsAgg_lookup tk files [] m h k]
  cases lastContrib tk files k with
  | none => rfl
  | some t => rfl

/-- First file of the overwrite example: scenario s, label 5, execute
durations of one second. -/
def fileA : ParsedFile := ⟨some "5", [[("execute_times", [0, 1])], []], "s"⟩

/-- Second file of the overwrite example: same scenario and label, execute
durations of two seconds. -/
def fileB : ParsedFile := ⟨some "5", [[("execute_times", [0, 2])], []], "s"⟩

/-- Witness for C10: processing fileA then fileB leaves only the fileB
triplet under (s, 5). -/
theorem show_plots_last_writer_wins_witness :
    showPlotsAgg "execute_times" [fileA, fileB] [] =
      .ok [(("s", 5), [2000, 2000, 2000]), (("s", 5), [1000, 1000, 1000])] ∧
      lookupAgg [(("s", 5), [2000, 2000, 2000]), (("s", 5), [1000, 1000, 1000])]
          ("s", 5) =
        lastContrib "execute_times" [fileA, fileB] ("s", 5) := by
  have hcvA : convert_to_float "5" = some 5 := by decide
  have hpsA : plugin_summary_values fileA "execute_times" = .ok [1000, 1000, 1000] := by
    simp [plugin_summary_values, fileA, collectDurations, dictGet, pairLoopIdx]
  have hpsB : plugin_summary_values fileB "execute_times" = .ok [2000, 2000, 2000] := by
    simp [plugin_summary_values, fileB, collectDurations, dictGet, pairLoopIdx]
    norm_num
  have hA : processFile "execute_times" fileA = .contributed "s" 5 [1000, 1000, 1000] := by
    simp [processFile, show fileA.label = some "5" from rfl,
      show fileA.times.length = 2 from rfl, hcvA, hpsA,
      show fileA.scenario_name = "s" from rfl]
  have hB : processFile "execute_times" fileB = .contributed "s" 5 [2000, 2000, 2000] := by
    simp [processFile, show fileB.label = some "5" from rfl,
      show fileB.times.length = 2 from rfl, hcvA, hpsB,
      show fileB.scenario_name = "s" from rfl]
  have hagg : showPlotsAgg "execute_times" [fileA, fileB] [] =
      .ok [(("s", 5), [2000, 2000, 2000]), (("s", 5), [1000, 1000, 1000])] := by
    simp [showPlotsAgg, hA, hB]
  exact ⟨hagg,
    show_plots_last_writer_wins "execute_times" [fileA, fileB] _ hagg ("s", 5)⟩

end CudaSched
